import Mathlib

/-!
Verification of the pyslam ground-truth core (`ground_truth.py`).

The embedding models:
* Python list indexing (including negative indices) by `pyGet`;
* `GroundTruth.getDataLine`, the per-format `getTimePoseAndAbsoluteScale`
  (timestamps and coordinates as rationals; the fifth returned component is
  the SQUARE of `abs_scale`, i.e. the expression the source passes to
  `np.sqrt` — theorems about the actual scale apply `Real.sqrt` to it);
* `convertToSimpleXYZ` and `getFull3dTrajectory`, parameterised by the
  resolver `getTimePoseAndAbsoluteScale` of the concrete subclass (failure of
  a resolution step is an `Option` `none`, mirroring a raised exception);
* the greedy `associate` matcher of `TumGroundTruth` / `EurocGroundTruth`;
* the json association cache (decimal string keys modelled as base-10 digit
  lists).
-/

/-- Python list indexing `l[i]` for an `int` index: nonnegative indices count
from the front, negative indices count from the back (`l[-1]` is the last
element); out of range on either side is an `IndexError`, modelled as `none`. -/
def pyGet {α : Type} (l : List α) (i : ℤ) : Option α :=
  if 0 ≤ i then l.get? i.toNat
  else if (-i).toNat ≤ l.length then l.get? (l.length - (-i).toNat)
  else none

/-- Result of `getTimePoseAndAbsoluteScale`:
`(timestamp, x, y, z, s)` where `s` abstracts the fifth returned value
(for the concrete subclasses below, the square of `abs_scale`). -/
abbrev TPose : Type := ℚ × ℚ × ℚ × ℚ × ℚ

namespace GroundTruth

/-- `GroundTruth.getDataLine` (ground_truth.py lines 91-93): adds
`start_frame_id` to the requested frame id and indexes `self.data`.
A data line is modelled as its list of already-parsed numeric tokens. -/
def getDataLine (data : List (List ℚ)) (start_frame_id : ℤ) (frame_id : ℤ) :
    Option (List ℚ) :=
  pyGet data (frame_id + start_frame_id)

end GroundTruth

/-- State of `SimpleGroundTruth`: token lines `data`, the scale factor and
the configured start frame offset. -/
structure SimpleGroundTruth where
  data : List (List ℚ)
  scale : ℚ
  start_frame_id : ℤ

namespace SimpleGroundTruth

/-- `SimpleGroundTruth.getTimePoseAndAbsoluteScale` (lines 150-162): adds
`start_frame_id` to `frame_id`, reads the previous line through
`getDataLine` (which adds `start_frame_id` AGAIN), scales coordinates, reads
the current line, and returns `(timestamp, x, y, z, s)` where `s` is the
radicand of the `np.sqrt` call (the squared displacement). -/
def getTimePoseAndAbsoluteScale (gt : SimpleGroundTruth) (frame_id : ℤ) :
    Option TPose :=
  let fid := frame_id + gt.start_frame_id
  (GroundTruth.getDataLine gt.data gt.start_frame_id (fid - 1)).bind fun ss =>
  (ss.get? 1).bind fun v1 =>
  (ss.get? 2).bind fun v2 =>
  (ss.get? 3).bind fun v3 =>
  (GroundTruth.getDataLine gt.data gt.start_frame_id fid).bind fun ss2 =>
  (ss2.get? 0).bind fun timestamp =>
  (ss2.get? 1).bind fun w1 =>
  (ss2.get? 2).bind fun w2 =>
  (ss2.get? 3).bind fun w3 =>
  let x_prev := gt.scale * v1
  let y_prev := gt.scale * v2
  let z_prev := gt.scale * v3
  let x := gt.scale * w1
  let y := gt.scale * w2
  let z := gt.scale * w3
  some (timestamp, x, y, z,
    (x - x_prev) * (x - x_prev) + (y - y_prev) * (y - y_prev) +
      (z - z_prev) * (z - z_prev))

end SimpleGroundTruth

/-- State of `KittiGroundTruth`: pose lines `data`, the timestamp lines
`data_timestamps`, scale factor and start frame offset. -/
structure KittiGroundTruth where
  data : List (List ℚ)
  data_timestamps : List ℚ
  scale : ℚ
  start_frame_id : ℤ

namespace KittiGroundTruth

/-- `KittiGroundTruth.getTimePoseAndAbsoluteScale` (lines 185-199): like the
Simple variant but coordinates sit at token positions 3, 7, 11, and the
timestamp comes from `self.data_timestamps[frame_id]` — with `frame_id`
incremented ONCE, while the pose lines go through `getDataLine`, which adds
`start_frame_id` a second time. -/
def getTimePoseAndAbsoluteScale (gt : KittiGroundTruth) (frame_id : ℤ) :
    Option TPose :=
  let fid := frame_id + gt.start_frame_id
  (GroundTruth.getDataLine gt.data gt.start_frame_id (fid - 1)).bind fun ss =>
  (ss.get? 3).bind fun v1 =>
  (ss.get? 7).bind fun v2 =>
  (ss.get? 11).bind fun v3 =>
  (GroundTruth.getDataLine gt.data gt.start_frame_id fid).bind fun ss2 =>
  (ss2.get? 3).bind fun w1 =>
  (ss2.get? 7).bind fun w2 =>
  (ss2.get? 11).bind fun w3 =>
  (pyGet gt.data_timestamps fid).bind fun timestamp =>
  let x_prev := gt.scale * v1
  let y_prev := gt.scale * v2
  let z_prev := gt.scale * v3
  let x := gt.scale * w1
  let y := gt.scale * w2
  let z := gt.scale * w3
  some (timestamp, x, y, z,
    (x - x_prev) * (x - x_prev) + (y - y_prev) * (y - y_prev) +
      (z - z_prev) * (z - z_prev))

end KittiGroundTruth

/-- Candidate match triple `(time_diff, ia, ib)` as built by the list
comprehension in `associate`. -/
abbrev Cand : Type := ℚ × ℕ × ℕ

/-- Lexicographic comparison of candidate triples: the order used by the
Python `list.sort()` on `(diff, ia, ib)` tuples. -/
def candLE (x y : Cand) : Prop :=
  x.1 < y.1 ∨ (x.1 = y.1 ∧ (x.2.1 < y.2.1 ∨ (x.2.1 = y.2.1 ∧ x.2.2 ≤ y.2.2)))

instance candLE.instDecidableRel : DecidableRel candLE := fun x y => by
  unfold candLE; infer_instance

/-- The candidate list built by the comprehension in `associate`
(lines 272-275 and 378-381): all `(|a - (b + offset)|, ia, ib)` with the
shifted absolute difference strictly below `max_difference`, enumerated for
each `ia` over all `ib`. Records are modelled by their leading timestamp
(`a[0]` and `b[0]` are the only fields the algorithm reads). -/
def potentialMatches (first_list second_list : List ℚ)
    (offset max_difference : ℚ) : List Cand :=
  (List.range first_list.length).flatMap fun ia =>
    (List.range second_list.length).filterMap fun ib =>
      if |first_list.getD ia 0 - (second_list.getD ib 0 + offset)| <
          max_difference then
        some (|first_list.getD ia 0 - (second_list.getD ib 0 + offset)|, ia, ib)
      else none

/-- Mutable state of the claiming scan in `associate`: the matches map
(as an insertion-ordered association list `(ia, ib, diff)`) and the two
claimed-index flag arrays. -/
structure AssocState where
  matchList : List (ℕ × ℕ × ℚ)
  first_flag : List Bool
  second_flag : List Bool

/-- One iteration of the claiming scan (lines 280-286 / 386-392): claim
`(ia, ib)` into the map only if neither flag is set, then set both flags. -/
def assocStep (s : AssocState) (c : Cand) : AssocState :=
  if s.first_flag.getD c.2.1 false = false ∧
      s.second_flag.getD c.2.2 false = false then
    { matchList := s.matchList ++ [(c.2.1, c.2.2, c.1)],
      first_flag := s.first_flag.set c.2.1 true,
      second_flag := s.second_flag.set c.2.2 true }
  else s

/-- The whole body of `associate`: build candidates, sort them by
`(diff, ia, ib)`, scan them claiming greedily. Returns the final state
(map plus flags); `associate` below projects out the map. -/
def associateRun (first_list second_list : List ℚ)
    (offset max_difference : ℚ) : AssocState :=
  (List.insertionSort candLE
      (potentialMatches first_list second_list offset max_difference)).foldl
    assocStep
    ⟨[], List.replicate first_list.length false,
      List.replicate second_list.length false⟩

/-- `TumGroundTruth.associate` / `EurocGroundTruth.associate`
(lines 256-291 and 362-397): the produced map, as an insertion-ordered
association list of `(ia, ib, diff)` entries. The Tum variant additionally
stores the two raw timestamps in each value; both variants are otherwise
identical and are modelled once. -/
def associate (first_list second_list : List ℚ)
    (offset max_difference : ℚ) : List (ℕ × ℕ × ℚ) :=
  (associateRun first_list second_list offset max_difference).matchList

/-- `num_missing_associations` (lines 287-288 / 393-394): the number of
primary indices whose flag is still unset after the scan. -/
def num_missing_associations (first_list second_list : List ℚ)
    (offset max_difference : ℚ) : ℕ :=
  ((List.range first_list.length).filter fun ia =>
    !(associateRun first_list second_list offset
        max_difference).first_flag.getD ia false).length

namespace GroundTruth

/-- The loop body of `GroundTruth.convertToSimpleXYZ` (lines 101-109), one
output line per visited index: resolve the index (a raised exception — a
`none` — aborts the whole call, as the source has no handler here), force
the scale of index `0` to `1`, and emit the five fields
`timestamp x y z scale` of the line. `resolve` abstracts
`self.getTimePoseAndAbsoluteScale`. -/
def writeLines (resolve : ℕ → Option TPose) : List ℕ → Option (List (List ℚ))
  | [] => some []
  | ii :: rest =>
    (resolve ii).bind fun p =>
    (writeLines resolve rest).bind fun tail =>
    some ([p.1, p.2.1, p.2.2.1, p.2.2.2.1,
      if ii = 0 then 1 else p.2.2.2.2] :: tail)

/-- `GroundTruth.convertToSimpleXYZ` (lines 101-109): one line per sample
index `0 ≤ ii < num_lines`, in order. Each written line is modelled by its
list of five numeric fields. -/
def convertToSimpleXYZ (resolve : ℕ → Option TPose) (num_lines : ℕ) :
    Option (List (List ℚ)) :=
  writeLines resolve (List.range num_lines)

/-- The loop body of `GroundTruth.getFull3dTrajectory` (lines 124-131):
on success append the point and the timestamp, on an exception (`none`)
skip the index. -/
def trajStep (resolve : ℕ → Option TPose)
    (acc : List (ℚ × ℚ × ℚ) × List ℚ) (ii : ℕ) :
    List (ℚ × ℚ × ℚ) × List ℚ :=
  match resolve ii with
  | some p => (acc.1 ++ [(p.2.1, p.2.2.1, p.2.2.2.1)], acc.2 ++ [p.1])
  | none => acc

/-- `GroundTruth.getFull3dTrajectory` (lines 120-134): visit the indices of
`range(1, num_lines - 1)`, i.e. `1` to `num_lines - 2` inclusive, resolving
each and skipping failures; return `(trajectory, timestamps)`. -/
def getFull3dTrajectory (resolve : ℕ → Option TPose) (num_lines : ℕ) :
    List (ℚ × ℚ × ℚ) × List ℚ :=
  (List.range' 1 (num_lines - 2)).foldl (trajStep resolve) ([], [])

end GroundTruth

/-- The decimal string form `str(k)` of a natural key, modelled as its
base-10 digit list, most significant digit first (`json.dump` writes dict
keys of the association cache this way). -/
def natToDecimal (n : ℕ) : List ℕ :=
  (Nat.digits 10 n).reverse

/-- The coercion `int(k)` back from a decimal key string, on the same
digit-list model of strings. -/
def decimalToNat (s : List ℕ) : ℕ :=
  Nat.ofDigits 10 s.reverse

/-- Serialization of an association map by `json.dump` (lines 229-230 /
325-326): every primary key becomes its decimal string; the value tuple
(of type `β`: `(ib, diff)`, optionally extended with the two timestamps)
is stored unchanged. -/
def serializeAssocMap {β : Type} (m : List (ℕ × β)) : List (List ℕ × β) :=
  m.map fun kv => (natToDecimal kv.1, kv.2)

/-- Deserialization by `json.load` plus the comprehension
`{int(k): v for k, v in data.items()}` (lines 232-234 / 328-330):
coerce every key back to an integer, keep the value tuple. -/
def deserializeAssocMap {β : Type} (l : List (List ℕ × β)) : List (ℕ × β) :=
  l.map fun kv => (decimalToNat kv.1, kv.2)

/-- A triple of rationals as a point of 3-dimensional Euclidean space,
used to state distance properties of `abs_scale`. -/
def E3 (a b c : ℚ) : EuclideanSpace ℝ (Fin 3) :=
  ![(a : ℝ), (b : ℝ), (c : ℝ)]

/-- The primary keys of the match map, in insertion order. -/
def AssocState.keys (s : AssocState) : List ℕ :=
  s.matchList.map fun m => m.1

/-- The claimed secondary indices of the match map, in insertion order. -/
def AssocState.secs (s : AssocState) : List ℕ :=
  s.matchList.map fun m => m.2.1

/-- Invariant of the claiming scan: the flag arrays keep their lengths, a
flag is set exactly for the already-claimed indices, claimed indices are
pairwise distinct on both sides, and every stored entry satisfies `P`. -/
structure AssocInv (P : ℕ → ℕ → ℚ → Prop) (N1 N2 : ℕ) (s : AssocState) :
    Prop where
  len1 : s.first_flag.length = N1
  len2 : s.second_flag.length = N2
  key_iff : ∀ i, i ∈ s.keys ↔ s.first_flag.getD i false = true
  sec_iff : ∀ j, j ∈ s.secs ↔ s.second_flag.getD j false = true
  key_nodup : s.keys.Nodup
  sec_nodup : s.secs.Nodup
  sound : ∀ m ∈ s.matchList, P m.1 m.2.1 m.2.2

example : pyGet [10, 20, 30] (-1) = some 30 := by decide
example : pyGet [10, 20, 30] (-4) = (none : Option ℕ) := by decide
example : pyGet [10, 20, 30] 2 = some 30 := by decide

lemma getD_set_self (l : List Bool) (i : ℕ) (b : Bool) (h : i < l.length) :
    (l.set i b).getD i false = b := by
  simp [List.getD, List.getElem?_set_self, h]

lemma getD_set_ne (l : List Bool) (i j : ℕ) (b : Bool) (h : j ≠ i) :
    (l.set i b).getD j false = l.getD j false := by
  simp [List.getD, List.getElem?_set_ne (Ne.symm h)]

lemma lt_length_of_getD_true {l : List Bool} {i : ℕ}
    (h : l.getD i false = true) : i < l.length := by
  by_contra hc
  simp [List.getD, List.getElem?_eq_none (Nat.le_of_not_lt hc)] at h

lemma getD_replicate_false (n i : ℕ) :
    (List.replicate n false).getD i false = false := by
  rcases Nat.lt_or_ge i n with h | h
  · simp [List.getD, List.getElem?_eq_getElem, h, List.length_replicate,
      List.getElem_replicate]
  · simp [List.getD, List.getElem?_eq_none, h, List.length_replicate]

lemma assocStep_inv {P : ℕ → ℕ → ℚ → Prop} {N1 N2 : ℕ} {s : AssocState}
    (c : Cand) (hI : AssocInv P N1 N2 s) (h1 : c.2.1 < N1) (h2 : c.2.2 < N2)
    (hP : P c.2.1 c.2.2 c.1) : AssocInv P N1 N2 (assocStep s c) := by
  obtain ⟨d, ia, ib⟩ := c
  simp only [assocStep]
  split
  case isFalse _ => exact hI
  case isTrue hcond =>
    obtain ⟨hc1, hc2⟩ := hcond
    have hia : ia ∉ s.keys := fun hmem => by
      rw [(hI.key_iff ia).mp hmem] at hc1; cases hc1
    have hib : ib ∉ s.secs := fun hmem => by
      rw [(hI.sec_iff ib).mp hmem] at hc2; cases hc2
    have hlt1 : ia < s.first_flag.length := hI.len1 ▸ h1
    have hlt2 : ib < s.second_flag.length := hI.len2 ▸ h2
    refine ⟨?_, ?_, ?_, ?_, ?_, ?_, ?_⟩
    · simp [List.length_set, hI.len1]
    · simp [List.length_set, hI.len2]
    · intro i
      by_cases hi : i = ia
      · subst hi
        rw [getD_set_self _ _ _ hlt1]
        simp [AssocState.keys]
      · rw [getD_set_ne _ _ _ _ hi]
        simp only [AssocState.keys, List.map_append, List.mem_append,
          List.map_cons, List.map_nil, List.mem_singleton, hi, or_false]
        exact hI.key_iff i
    · intro j
      by_cases hj : j = ib
      · subst hj
        rw [getD_set_self _ _ _ hlt2]
        simp [AssocState.secs]
      · rw [getD_set_ne _ _ _ _ hj]
        simp only [AssocState.secs, List.map_append, List.mem_append,
          List.map_cons, List.map_nil, List.mem_singleton, hj, or_false]
        exact hI.sec_iff j
    · show ((s.matchList ++ [(ia, ib, d)]).map fun m => m.1).Nodup
      rw [List.map_append, List.nodup_append]
      refine ⟨hI.key_nodup, List.nodup_singleton ia, fun x hx hx2 => ?_⟩
      simp only [List.map_cons, List.map_nil, List.mem_singleton] at hx2
      exact hia (hx2 ▸ hx)
    · show ((s.matchList ++ [(ia, ib, d)]).map fun m => m.2.1).Nodup
      rw [List.map_append, List.nodup_append]
      refine ⟨hI.sec_nodup, List.nodup_singleton ib, fun x hx hx2 => ?_⟩
      simp only [List.map_cons, List.map_nil, List.mem_singleton] at hx2
      exact hib (hx2 ▸ hx)
    · intro m hm
      rcases List.mem_append.mp hm with hm | hm
      · exact hI.sound m hm
      · rcases List.mem_singleton.mp hm with rfl
        exact hP

lemma foldl_assocStep_inv {P : ℕ → ℕ → ℚ → Prop} {N1 N2 : ℕ} :
    ∀ (L : List Cand) (s : AssocState), AssocInv P N1 N2 s →
      (∀ c ∈ L, c.2.1 < N1 ∧ c.2.2 < N2 ∧ P c.2.1 c.2.2 c.1) →
      AssocInv P N1 N2 (L.foldl assocStep s)
  | [], _, hI, _ => hI
  | c :: L, s, hI, hL => by
    simp only [List.foldl_cons]
    refine foldl_assocStep_inv L _
      (assocStep_inv c hI (hL c (List.mem_cons_self c L)).1
        (hL c (List.mem_cons_self c L)).2.1
        (hL c (List.mem_cons_self c L)).2.2) ?_
    intro x hx
    exact hL x (List.mem_cons_of_mem c hx)

lemma assocInv_init (P : ℕ → ℕ → ℚ → Prop) (N1 N2 : ℕ) :
    AssocInv P N1 N2
      ⟨[], List.replicate N1 false, List.replicate N2 false⟩ := by
  constructor <;>
    simp [AssocState.keys, AssocState.secs, getD_replicate_false]

lemma mem_potentialMatches {first_list second_list : List ℚ}
    {offset max_difference : ℚ} {c : Cand}
    (h : c ∈ potentialMatches first_list second_list offset max_difference) :
    c.2.1 < first_list.length ∧ c.2.2 < second_list.length ∧
      c.1 < max_difference ∧
      c.1 = |first_list.getD c.2.1 0 - (second_list.getD c.2.2 0 + offset)| := by
  simp only [potentialMatches, List.mem_flatMap, List.mem_filterMap,
    List.mem_range] at h
  obtain ⟨ia, hia, ib, hib, hc⟩ := h
  by_cases hlt : |first_list.getD ia 0 - (second_list.getD ib 0 + offset)| <
      max_difference
  · rw [if_pos hlt] at hc
    rcases Option.some.inj hc with rfl
    exact ⟨hia, hib, hlt, rfl⟩
  · rw [if_neg hlt] at hc
    cases hc

lemma length_filter_not {α : Type} (p : α → Bool) (l : List α) :
    (l.filter fun a => !p a).length = l.length - (l.filter p).length := by
  induction l with
  | nil => rfl
  | cons a l ih =>
    have hle := List.length_filter_le p l
    cases h : p a
    all_goals simp [List.filter_cons, h, ih]
    all_goals omega

/-- The full invariant holds for the final state of `associate`, with `P`
recording index ranges, the threshold bound and the defining value of every
stored time difference. -/
lemma associateRun_inv (first_list second_list : List ℚ)
    (offset max_difference : ℚ) :
    AssocInv
      (fun ia ib d => ia < first_list.length ∧ ib < second_list.length ∧
        d < max_difference ∧
        d = |first_list.getD ia 0 - (second_list.getD ib 0 + offset)|)
      first_list.length second_list.length
      (associateRun first_list second_list offset max_difference) := by
  apply foldl_assocStep_inv _ _ (assocInv_init _ _ _)
  intro c hc
  have hm := mem_potentialMatches
    ((List.perm_insertionSort candLE _).mem_iff.mp hc)
  exact ⟨hm.1, hm.2.1, hm⟩

/-- Claim C2: for every pair of input sequences, offset and max_difference,
the map returned by associate is injective in both directions: no primary
index occurs as a key more than once, and no secondary index is the first
component of the value of more than one key. -/
theorem associate_injective (first_list second_list : List ℚ)
    (offset max_difference : ℚ) :
    ((associate first_list second_list offset max_difference).map
      fun m => m.1).Nodup ∧
    ((associate first_list second_list offset max_difference).map
      fun m => m.2.1).Nodup :=
  ⟨(associateRun_inv first_list second_list offset max_difference).key_nodup,
   (associateRun_inv first_list second_list offset max_difference).sec_nodup⟩

/-- Claim C3: every entry of the map returned by associate has a time_diff
component strictly less than max_difference. -/
theorem associate_time_diff_lt (first_list second_list : List ℚ)
    (offset max_difference : ℚ) (m : ℕ × ℕ × ℚ)
    (hm : m ∈ associate first_list second_list offset max_difference) :
    m.2.2 < max_difference :=
  ((associateRun_inv first_list second_list offset
    max_difference).sound m hm).2.2.1

/-- Witness for C3: the hypothesis is satisfiable — on input `[5]`, `[5]`
with threshold `1` the map contains the entry `(0, 0, 0)`, whose time
difference is below the threshold. -/
theorem associate_time_diff_lt_witness : ((0, 0, 0) : ℕ × ℕ × ℚ).2.2 < 1 :=
  associate_time_diff_lt [5] [5] 0 1 (0, 0, 0)
    (by with_unfolding_all decide)

/-- Claim C4: on primary timestamps `[0, 1, 2.1]`, secondary timestamps
`[0.05, 1.02, 5]`, offset `0` and max_difference `0.1`, associate returns
exactly the entries `0 ↦ (0, 0.05)` and `1 ↦ (1, 0.02)` (claimed in
greedy order: the closer pair first), primary index 2 is unmatched, and
the missing-association count is 1. -/
theorem associate_example :
    associate [0, 1, 21/10] [1/20, 51/50, 5] 0 (1/10) =
      [(1, 1, 1/50), (0, 0, 1/20)] ∧
    2 ∉ (associate [0, 1, 21/10] [1/20, 51/50, 5] 0 (1/10)).map
      (fun m => m.1) ∧
    num_missing_associations [0, 1, 21/10] [1/20, 51/50, 5] 0 (1/10) = 1 := by
  with_unfolding_all decide

/-- Claim C10: the missing-association count equals the primary length minus
the number of map keys — every primary index is either a key or counted
exactly once as missing — and the count is zero exactly when the map
matches every primary index. -/
theorem associate_missing_count_eq (first_list second_list : List ℚ)
    (offset max_difference : ℚ) :
    num_missing_associations first_list second_list offset max_difference =
      first_list.length -
        (associate first_list second_list offset max_difference).length ∧
    (num_missing_associations first_list second_list offset max_difference = 0
      ↔ ∀ ia < first_list.length,
          ia ∈ (associate first_list second_list offset max_difference).map
            fun m => m.1) := by
  have hI := associateRun_inv first_list second_list offset max_difference
  have hkeys_eq : (associate first_list second_list offset
      max_difference).map (fun m => m.1) =
      (associateRun first_list second_list offset max_difference).keys := rfl
  have hKlt : ∀ k ∈ (associateRun first_list second_list offset
      max_difference).keys, k < first_list.length := fun k hk =>
    hI.len1 ▸ lt_length_of_getD_true ((hI.key_iff k).mp hk)
  have hperm : List.Perm
      ((List.range first_list.length).filter fun ia =>
        (associateRun first_list second_list offset
          max_difference).first_flag.getD ia false)
      (associateRun first_list second_list offset max_difference).keys := by
    apply List.perm_of_nodup_nodup_toFinset_eq
      ((List.nodup_range first_list.length).filter _) hI.key_nodup
    ext x
    simp only [List.mem_toFinset, List.mem_filter, List.mem_range]
    constructor
    · rintro ⟨-, hx⟩
      exact (hI.key_iff x).mpr hx
    · intro hx
      exact ⟨hKlt x hx, (hI.key_iff x).mp hx⟩
  have hflen := hperm.length_eq
  have hmlen : (associate first_list second_list offset
      max_difference).length =
      (associateRun first_list second_list offset max_difference).keys.length := by
    rw [← hkeys_eq, List.length_map]
  have hKle : (associateRun first_list second_list offset
      max_difference).keys.length ≤ first_list.length := by
    rw [← hflen]
    simpa using List.length_filter_le _ (List.range first_list.length)
  have hmiss : num_missing_associations first_list second_list offset
      max_difference = first_list.length -
      (associateRun first_list second_list offset max_difference).keys.length := by
    simp only [num_missing_associations]
    rw [length_filter_not, List.length_range, hflen]
  constructor
  · rw [hmiss, hmlen]
  · rw [hmiss, hkeys_eq]
    constructor
    · intro h0 ia hia
      have hlen : (associateRun first_list second_list offset
          max_difference).keys.length = first_list.length :=
        le_antisymm hKle (Nat.sub_eq_zero_iff_le.mp h0)
      have hF : ((List.range first_list.length).filter fun ia =>
          (associateRun first_list second_list offset
            max_difference).first_flag.getD ia false) =
          List.range first_list.length :=
        (List.filter_sublist _).eq_of_length
          (by rw [hflen, hlen, List.length_range])
      have hmem : ia ∈ (List.range first_list.length).filter fun ia =>
          (associateRun first_list second_list offset
            max_difference).first_flag.getD ia false := by
        rw [hF]
        exact List.mem_range.mpr hia
      exact (hI.key_iff ia).mpr (by simpa using (List.mem_filter.mp hmem).2)
    · intro hall
      have hp : List.Perm (List.range first_list.length)
          (associateRun first_list second_list offset max_difference).keys := by
        apply List.perm_of_nodup_nodup_toFinset_eq
          (List.nodup_range first_list.length) hI.key_nodup
        ext x
        simp only [List.mem_toFinset, List.mem_range]
        exact ⟨fun hx => hall x hx, fun hx => hKlt x hx⟩
      have := hp.length_eq
      rw [List.length_range] at this
      omega

lemma foldl_trajStep (resolve : ℕ → Option TPose) :
    ∀ (l : List ℕ) (acc : List (ℚ × ℚ × ℚ) × List ℚ),
      l.foldl (GroundTruth.trajStep resolve) acc =
        (acc.1 ++ l.filterMap (fun ii => (resolve ii).map
            fun p => (p.2.1, p.2.2.1, p.2.2.2.1)),
          acc.2 ++ l.filterMap (fun ii => (resolve ii).map fun p => p.1))
  | [], acc => by simp
  | ii :: l, acc => by
    cases h : resolve ii with
    | none =>
      simp [GroundTruth.trajStep, h, foldl_trajStep resolve l acc,
        List.filterMap_cons]
    | some p =>
      simp [GroundTruth.trajStep, h, foldl_trajStep resolve l _,
        List.filterMap_cons, List.append_assoc]

lemma length_filterMap_resolve {γ : Type} (resolve : ℕ → Option TPose)
    (g : TPose → γ) :
    ∀ l : List ℕ, (l.filterMap fun ii => (resolve ii).map g).length =
      l.countP fun ii => (resolve ii).isSome
  | [] => rfl
  | ii :: l => by
    cases h : resolve ii <;>
      simp [List.filterMap_cons, h, List.countP_cons,
        length_filterMap_resolve resolve g l]

lemma countP_update (p q : ℕ → Bool) :
    ∀ (l : List ℕ), l.Nodup → ∀ k ∈ l, p k = true → q k = false →
      (∀ j ∈ l, j ≠ k → q j = p j) → l.countP q + 1 = l.countP p
  | [], _, k, hk, _, _, _ => absurd hk (List.not_mem_nil k)
  | a :: l, hnd, k, hk, hpk, hqk, hagree => by
    have hnd2 := List.nodup_cons.mp hnd
    rcases List.mem_cons.mp hk with rfl | hkl
    · have hcongr : l.countP q = l.countP p := by
        apply List.countP_congr
        intro j hj
        have hne : j ≠ k := fun he => hnd2.1 (he ▸ hj)
        rw [hagree j (List.mem_cons_of_mem _ hj) hne]
      simp [List.countP_cons, hpk, hqk, hcongr]
    · have hne : a ≠ k := fun he => hnd2.1 (he ▸ hkl)
      have hqa : q a = p a := hagree a (List.mem_cons_self a l) hne
      have ih := countP_update p q l hnd2.2 k hkl hpk hqk
        (fun j hj hjne => hagree j (List.mem_cons_of_mem _ hj) hjne)
      cases hpa : p a <;> simp [List.countP_cons, hqa, hpa] <;> omega

/-- Claim C6: getFull3dTrajectory visits exactly the indices 1 through
num_lines - 2 in increasing order, skips each failing index without the
failure propagating (the function is total), returns the per-index results
of exactly the successful indices in order, with trajectory and timestamp
sequences of equal length, and removing one successful mid-sequence
resolution shortens the result by exactly one element. -/
theorem getFull3dTrajectory_spec (resolve : ℕ → Option TPose)
    (num_lines : ℕ) :
    (GroundTruth.getFull3dTrajectory resolve num_lines).1 =
      (List.range' 1 (num_lines - 2)).filterMap
        (fun ii => (resolve ii).map fun p => (p.2.1, p.2.2.1, p.2.2.2.1)) ∧
    (GroundTruth.getFull3dTrajectory resolve num_lines).2 =
      (List.range' 1 (num_lines - 2)).filterMap
        (fun ii => (resolve ii).map fun p => p.1) ∧
    (GroundTruth.getFull3dTrajectory resolve num_lines).1.length =
      (GroundTruth.getFull3dTrajectory resolve num_lines).2.length ∧
    (GroundTruth.getFull3dTrajectory resolve num_lines).2.length =
      ((List.range' 1 (num_lines - 2)).countP
        fun ii => (resolve ii).isSome) ∧
    ∀ (resolve' : ℕ → Option TPose) (k : ℕ),
      k ∈ List.range' 1 (num_lines - 2) → (resolve k).isSome →
      resolve' k = none → (∀ j, j ≠ k → resolve' j = resolve j) →
      (GroundTruth.getFull3dTrajectory resolve' num_lines).2.length + 1 =
        (GroundTruth.getFull3dTrajectory resolve num_lines).2.length := by
  have hrun := foldl_trajStep resolve (List.range' 1 (num_lines - 2)) ([], [])
  have h1 : (GroundTruth.getFull3dTrajectory resolve num_lines).1 =
      (List.range' 1 (num_lines - 2)).filterMap
        (fun ii => (resolve ii).map fun p => (p.2.1, p.2.2.1, p.2.2.2.1)) := by
    rw [GroundTruth.getFull3dTrajectory, hrun]
    simp
  have h2 : (GroundTruth.getFull3dTrajectory resolve num_lines).2 =
      (List.range' 1 (num_lines - 2)).filterMap
        (fun ii => (resolve ii).map fun p => p.1) := by
    rw [GroundTruth.getFull3dTrajectory, hrun]
    simp
  refine ⟨h1, h2, ?_, ?_, ?_⟩
  · rw [h1, h2, length_filterMap_resolve, length_filterMap_resolve]
  · rw [h2, length_filterMap_resolve]
  · intro resolve' k hk hsome hnone hagree
    have h2' : (GroundTruth.getFull3dTrajectory resolve' num_lines).2 =
        (List.range' 1 (num_lines - 2)).filterMap
          (fun ii => (resolve' ii).map fun p => p.1) := by
      rw [GroundTruth.getFull3dTrajectory,
        foldl_trajStep resolve' (List.range' 1 (num_lines - 2)) ([], [])]
      simp
    rw [h2, h2', length_filterMap_resolve, length_filterMap_resolve]
    apply countP_update _ _ _ (List.nodup_range' 1 (num_lines - 2)) k hk hsome
    · rw [hnone]
      rfl
    · intro j _ hj
      rw [hagree j hj]

/-- Witness for C6: on five samples with every index resolvable, removing
the association of the middle index 2 shortens the extracted timestamp
sequence from 3 elements to 2. -/
theorem getFull3dTrajectory_spec_witness :
    (GroundTruth.getFull3dTrajectory
      (fun ii => if ii = 2 then none
        else some ((ii : ℚ), 0, 0, 0, 0)) 5).2.length + 1 =
      (GroundTruth.getFull3dTrajectory
        (fun ii => some ((ii : ℚ), 0, 0, 0, 0)) 5).2.length :=
  (getFull3dTrajectory_spec (fun ii => some ((ii : ℚ), 0, 0, 0, 0)) 5).2.2.2.2
    (fun ii => if ii = 2 then none else some ((ii : ℚ), 0, 0, 0, 0)) 2
    (by decide) rfl (if_pos rfl) (fun j hj => if_neg hj)

/-- Claim C7: serializing an AssociationMap (keys written as decimal
strings, value tuples stored unchanged — `(ib, diff)` for Euroc, extended
with the two timestamps for Tum, hence the generic value type) and then
deserializing it (coercing keys back to integers) reproduces every entry
exactly: the same keys and, for each key, the same value tuple. -/
theorem assoc_map_serialize_roundtrip {β : Type} (m : List (ℕ × β)) :
    deserializeAssocMap (serializeAssocMap m) = m := by
  induction m with
  | nil => rfl
  | cons kv m ih =>
    simp only [serializeAssocMap, deserializeAssocMap, List.map_cons,
      List.map_map] at ih ⊢
    rw [List.cons_eq_cons]
    refine ⟨?_, ih⟩
    show (decimalToNat (natToDecimal kv.1), kv.2) = kv
    rw [decimalToNat, natToDecimal, List.reverse_reverse,
      Nat.ofDigits_digits]

lemma writeLines_spec (resolve : ℕ → Option TPose) :
    ∀ (l : List ℕ) (out : List (List ℚ)),
      GroundTruth.writeLines resolve l = some out →
      out.length = l.length ∧
      ∀ i ii, l.get? i = some ii → ∃ p, resolve ii = some p ∧
        out.get? i = some [p.1, p.2.1, p.2.2.1, p.2.2.2.1,
          if ii = 0 then 1 else p.2.2.2.2]
  | [], out, h => by
    rcases Option.some.inj h.symm with rfl
    exact ⟨rfl, fun i ii hii => by cases hii⟩
  | a :: l, out, h => by
    rw [GroundTruth.writeLines] at h
    cases hp : resolve a with
    | none => rw [hp] at h; cases h
    | some p =>
      rw [hp, Option.some_bind] at h
      cases htail : GroundTruth.writeLines resolve l with
      | none => rw [htail] at h; cases h
      | some tail =>
        rw [htail, Option.some_bind] at h
        rcases Option.some.inj h.symm with rfl
        have ih := writeLines_spec resolve l tail htail
        refine ⟨by simp [ih.1], fun i ii hii => ?_⟩
        cases i with
        | zero =>
          rcases Option.some.inj hii with rfl
          exact ⟨p, hp, rfl⟩
        | succ i => exact ih.2 i ii hii

/-- Claim C9: for a dataset with num_lines records (all of them resolvable,
since the loop has no exception handler), convertToSimpleXYZ emits exactly
num_lines output lines, one per sample index in order, each line being the
five fields timestamp x y z scale, and the scale field of the first emitted
line (index 0) equals 1 regardless of what the resolver returned for it. -/
theorem convertToSimpleXYZ_spec (resolve : ℕ → Option TPose)
    (num_lines : ℕ) (out : List (List ℚ))
    (h : GroundTruth.convertToSimpleXYZ resolve num_lines = some out) :
    out.length = num_lines ∧
    (∀ line ∈ out, line.length = 5) ∧
    (∀ i < num_lines, ∃ p, resolve i = some p ∧
      out.get? i = some [p.1, p.2.1, p.2.2.1, p.2.2.2.1,
        if i = 0 then 1 else p.2.2.2.2]) ∧
    (0 < num_lines → ∃ line, out.get? 0 = some line ∧ line.get? 4 = some 1) := by
  have hs := writeLines_spec resolve (List.range num_lines) out h
  have hlen : out.length = num_lines := by
    rw [hs.1, List.length_range]
  have hline : ∀ i < num_lines, ∃ p, resolve i = some p ∧
      out.get? i = some [p.1, p.2.1, p.2.2.1, p.2.2.2.1,
        if i = 0 then 1 else p.2.2.2.2] := by
    intro i hi
    refine hs.2 i i ?_
    rw [List.get?_eq_getElem?]
    exact List.getElem?_range hi
  refine ⟨hlen, ?_, hline, ?_⟩
  · intro line hmem
    rcases List.get?_of_mem hmem with ⟨i, hi⟩
    have hilt : i < num_lines := by
      rw [← hlen]
      rcases List.get?_eq_some.mp hi with ⟨hl, -⟩
      exact hl
    rcases hline i hilt with ⟨p, -, hout⟩
    rw [hi] at hout
    rcases Option.some.inj hout with rfl
    rfl
  · intro hpos
    rcases hline 0 hpos with ⟨p, -, hout⟩
    exact ⟨_, hout, by simp⟩

/-- Witness for C9: a concrete two-record dataset where every index
resolves; the hypothesis of the specification holds and the output has
exactly two lines (the first with scale forced to 1). -/
theorem convertToSimpleXYZ_spec_witness :
    GroundTruth.convertToSimpleXYZ
      (fun ii => some ((ii : ℚ), 0, 0, 0, 7)) 2 =
      some [[0, 0, 0, 0, 1], [1, 0, 0, 0, 7]] ∧
    ([[0, 0, 0, 0, 1], [1, 0, 0, 0, 7]] : List (List ℚ)).length = 2 :=
  ⟨by with_unfolding_all decide,
    (convertToSimpleXYZ_spec (fun ii => some ((ii : ℚ), 0, 0, 0, 7)) 2
      [[0, 0, 0, 0, 1], [1, 0, 0, 0, 7]]
      (by with_unfolding_all decide)).1⟩

/-- Claim C1 is violated by the code (code bug): for `SimpleGroundTruth`
with start offset 1, resolving frame 1 returns the record at index
3 = 1 + 2·1 — `getTimePoseAndAbsoluteScale` adds the offset and then the
inherited `getDataLine` adds it again — whereas the record at the
specified index 1 + 1 = 2 is a different record (timestamp 2, not 3).
(`TumGroundTruth`/`EurocGroundTruth` override `getDataLine` without the
addition, so they do apply the offset once.) -/
theorem simple_start_offset_applied_twice :
    (SimpleGroundTruth.getTimePoseAndAbsoluteScale
      ⟨[[0, 10, 0, 0], [1, 11, 0, 0], [2, 12, 0, 0], [3, 13, 0, 0]], 1, 1⟩
      1).map (fun p => p.1) = some 3 ∧
    ([[0, 10, 0, 0], [1, 11, 0, 0], [2, 12, 0, 0], [3, 13, 0, 0]] :
      List (List ℚ)).get? 2 = some [2, 12, 0, 0] := by
  with_unfolding_all decide

/-- Counterexample to C8 as stated: with start offset 0, requesting
reconstruction for frame 0 does NOT fail with an out-of-range error: Python
maps the predecessor index -1 to the last record, and the call returns a
value built from it (here the squared displacement 12 comes from the last
record (3,3,3) against the current record (1,1,1)). -/
theorem simple_first_frame_counterexample :
    SimpleGroundTruth.getTimePoseAndAbsoluteScale
      ⟨[[10, 1, 1, 1], [11, 2, 2, 2], [12, 3, 3, 3]], 1, 0⟩ 0 =
      some (10, 1, 1, 1, 12) := by
  with_unfolding_all decide

/-- Claim C8 (amended): requesting reconstruction for the very first sample
(frame 0 with start offset 0) resolves predecessor index -1, which Python
negative indexing maps to the LAST record of the dataset; the call
therefore succeeds — it returns a value built from an existing record (the
last one) instead of failing with an out-of-range error. -/
theorem simple_first_frame_uses_last_record (gt : SimpleGroundTruth)
    (h0 : gt.start_frame_id = 0) (hne : gt.data ≠ [])
    (hlast : 4 ≤ (gt.data.getLast hne).length)
    (hhead : 4 ≤ (gt.data.head hne).length) :
    GroundTruth.getDataLine gt.data gt.start_frame_id (-1) =
      some (gt.data.getLast hne) ∧
    (gt.getTimePoseAndAbsoluteScale 0).isSome = true := by
  have hlen : 0 < gt.data.length := List.length_pos.mpr hne
  have hfirst : GroundTruth.getDataLine gt.data gt.start_frame_id (-1) =
      some (gt.data.getLast hne) := by
    rw [GroundTruth.getDataLine, h0, pyGet]
    rw [if_neg (by norm_num : ¬ (0:ℤ) ≤ -1 + 0)]
    rw [if_pos (by simpa using hlen : (-(-1 + 0 : ℤ)).toNat ≤ gt.data.length)]
    have harg : (-(-1 + 0 : ℤ)).toNat = 1 := by norm_num
    rw [harg, List.get?_eq_get (Nat.sub_lt hlen one_pos),
      List.getLast_eq_getElem, List.get_eq_getElem]
  refine ⟨hfirst, ?_⟩
  have hprev : GroundTruth.getDataLine gt.data gt.start_frame_id
      (0 + gt.start_frame_id - 1) = some (gt.data.getLast hne) := by
    rw [show (0 + gt.start_frame_id - 1 : ℤ) = -1 by rw [h0]; ring] at *
    exact hfirst
  have hcur : GroundTruth.getDataLine gt.data gt.start_frame_id
      (0 + gt.start_frame_id) = some (gt.data.head hne) := by
    rw [GroundTruth.getDataLine, h0, pyGet]
    rw [if_pos (by norm_num : (0:ℤ) ≤ 0 + 0 + 0)]
    rw [show ((0 + 0 + 0 : ℤ)).toNat = 0 by norm_num]
    rw [List.get?_eq_get hlen]
    congr 1
    rw [List.get_eq_getElem, List.head_eq_getElem_zero]
  obtain ⟨v1, hv1⟩ : ∃ v, (gt.data.getLast hne).get? 1 = some v :=
    ⟨_, List.get?_eq_get (by omega)⟩
  obtain ⟨v2, hv2⟩ : ∃ v, (gt.data.getLast hne).get? 2 = some v :=
    ⟨_, List.get?_eq_get (by omega)⟩
  obtain ⟨v3, hv3⟩ : ∃ v, (gt.data.getLast hne).get? 3 = some v :=
    ⟨_, List.get?_eq_get (by omega)⟩
  obtain ⟨w0, hw0⟩ : ∃ v, (gt.data.head hne).get? 0 = some v :=
    ⟨_, List.get?_eq_get (by omega)⟩
  obtain ⟨w1, hw1⟩ : ∃ v, (gt.data.head hne).get? 1 = some v :=
    ⟨_, List.get?_eq_get (by omega)⟩
  obtain ⟨w2, hw2⟩ : ∃ v, (gt.data.head hne).get? 2 = some v :=
    ⟨_, List.get?_eq_get (by omega)⟩
  obtain ⟨w3, hw3⟩ : ∃ v, (gt.data.head hne).get? 3 = some v :=
    ⟨_, List.get?_eq_get (by omega)⟩
  simp only [SimpleGroundTruth.getTimePoseAndAbsoluteScale]
  rw [hprev, Option.some_bind, hv1, Option.some_bind, hv2, Option.some_bind,
    hv3, Option.some_bind, hcur, Option.some_bind, hw0, Option.some_bind,
    hw1, Option.some_bind, hw2, Option.some_bind, hw3, Option.some_bind]
  rfl

/-- Witness for the amended C8: a concrete three-record dataset; the
resolution of frame 0 succeeds. -/
theorem simple_first_frame_uses_last_record_witness :
    (SimpleGroundTruth.getTimePoseAndAbsoluteScale
      ⟨[[10, 1, 1, 1], [11, 2, 2, 2], [12, 3, 3, 3]], 1, 0⟩ 0).isSome = true :=
  (simple_first_frame_uses_last_record
    ⟨[[10, 1, 1, 1], [11, 2, 2, 2], [12, 3, 3, 3]], 1, 0⟩ rfl
    (by decide) (by decide) (by decide)).2

lemma simple_resolve_eq (gt : SimpleGroundTruth) (f : ℤ)
    (ssp ssc : List ℚ) (xp yp zp tc xc yc zc : ℚ)
    (hp : GroundTruth.getDataLine gt.data gt.start_frame_id
      (f + gt.start_frame_id - 1) = some ssp)
    (hc : GroundTruth.getDataLine gt.data gt.start_frame_id
      (f + gt.start_frame_id) = some ssc)
    (hxp : ssp.get? 1 = some xp) (hyp2 : ssp.get? 2 = some yp)
    (hzp : ssp.get? 3 = some zp)
    (htc : ssc.get? 0 = some tc) (hxc : ssc.get? 1 = some xc)
    (hyc : ssc.get? 2 = some yc) (hzc : ssc.get? 3 = some zc) :
    gt.getTimePoseAndAbsoluteScale f =
      some (tc, gt.scale * xc, gt.scale * yc, gt.scale * zc,
        (gt.scale * xc - gt.scale * xp) * (gt.scale * xc - gt.scale * xp) +
        (gt.scale * yc - gt.scale * yp) * (gt.scale * yc - gt.scale * yp) +
        (gt.scale * zc - gt.scale * zp) * (gt.scale * zc - gt.scale * zp)) := by
  simp only [SimpleGroundTruth.getTimePoseAndAbsoluteScale]
  rw [hp, Option.some_bind, hxp, Option.some_bind, hyp2, Option.some_bind,
    hzp, Option.some_bind, hc, Option.some_bind, htc, Option.some_bind,
    hxc, Option.some_bind, hyc, Option.some_bind, hzc, Option.some_bind]

lemma dist_E3 (a b c d e f : ℚ) :
    dist (E3 a b c) (E3 d e f) =
      Real.sqrt (((a - d) * (a - d) + (b - e) * (b - e) +
        (c - f) * (c - f) : ℚ)) := by
  rw [EuclideanSpace.dist_eq]
  congr 1
  rw [Fin.sum_univ_three]
  simp only [E3, Matrix.cons_val_zero, Matrix.cons_val_one, Matrix.head_cons,
    Matrix.cons_val_two, Matrix.tail_cons, Real.dist_eq, sq_abs]
  push_cast
  ring

lemma norm_E3 (a b c : ℚ) :
    ‖E3 a b c‖ = Real.sqrt ((a * a + b * b + c * c : ℚ)) := by
  rw [EuclideanSpace.norm_eq]
  congr 1
  rw [Fin.sum_univ_three]
  simp only [E3, Matrix.cons_val_zero, Matrix.cons_val_one, Matrix.head_cons,
    Matrix.cons_val_two, Matrix.tail_cons, Real.norm_eq_abs, sq_abs]
  push_cast
  ring

/-- Claim C5: for every resolvable frame, abs_scale (the square root of the
returned radicand) is the Euclidean distance between the scaled current
position and the scaled preceding position — a pure inter-frame
displacement; in particular, for three collinear equally spaced 3-D points
the abs_scale between each consecutive pair equals the constant step
length. -/
theorem simple_abs_scale_euclidean :
    (∀ (gt : SimpleGroundTruth) (f : ℤ) (t x y z s2 : ℚ)
        (ssp ssc : List ℚ) (xp yp zp tc xc yc zc : ℚ),
      GroundTruth.getDataLine gt.data gt.start_frame_id
          (f + gt.start_frame_id - 1) = some ssp →
      GroundTruth.getDataLine gt.data gt.start_frame_id
          (f + gt.start_frame_id) = some ssc →
      ssp.get? 1 = some xp → ssp.get? 2 = some yp → ssp.get? 3 = some zp →
      ssc.get? 0 = some tc → ssc.get? 1 = some xc → ssc.get? 2 = some yc →
      ssc.get? 3 = some zc →
      gt.getTimePoseAndAbsoluteScale f = some (t, x, y, z, s2) →
      Real.sqrt s2 =
        dist (E3 x y z)
          (E3 (gt.scale * xp) (gt.scale * yp) (gt.scale * zp))) ∧
    (∀ t0 t1 t2 a1 a2 a3 d1 d2 d3 : ℚ,
      ∃ r r2 : TPose,
        (SimpleGroundTruth.mk
            [[t0, a1, a2, a3], [t1, a1 + d1, a2 + d2, a3 + d3],
              [t2, a1 + 2 * d1, a2 + 2 * d2, a3 + 2 * d3]] 1
            0).getTimePoseAndAbsoluteScale 1 = some r ∧
        (SimpleGroundTruth.mk
            [[t0, a1, a2, a3], [t1, a1 + d1, a2 + d2, a3 + d3],
              [t2, a1 + 2 * d1, a2 + 2 * d2, a3 + 2 * d3]] 1
            0).getTimePoseAndAbsoluteScale 2 = some r2 ∧
        Real.sqrt r.2.2.2.2 = ‖E3 d1 d2 d3‖ ∧
        Real.sqrt r2.2.2.2.2 = ‖E3 d1 d2 d3‖) := by
  constructor
  · intro gt f t x y z s2 ssp ssc xp yp zp tc xc yc zc hp hc hxp hyp2 hzp
      htc hxc hyc hzc h
    have he := simple_resolve_eq gt f ssp ssc xp yp zp tc xc yc zc hp hc
      hxp hyp2 hzp htc hxc hyc hzc
    rw [h] at he
    have ht := Option.some.inj he
    simp only [Prod.ext_iff] at ht
    obtain ⟨-, hx, hy, hz, hs⟩ := ht
    subst hx hy hz hs
    rw [dist_E3]
  · intro t0 t1 t2 a1 a2 a3 d1 d2 d3
    have h1 := simple_resolve_eq
      (SimpleGroundTruth.mk
        [[t0, a1, a2, a3], [t1, a1 + d1, a2 + d2, a3 + d3],
          [t2, a1 + 2 * d1, a2 + 2 * d2, a3 + 2 * d3]] 1 0) 1
      [t0, a1, a2, a3] [t1, a1 + d1, a2 + d2, a3 + d3]
      a1 a2 a3 t1 (a1 + d1) (a2 + d2) (a3 + d3)
      (by norm_num [GroundTruth.getDataLine, pyGet]; try rfl)
      (by norm_num [GroundTruth.getDataLine, pyGet]; try rfl)
      rfl rfl rfl rfl rfl rfl rfl
    have h2 := simple_resolve_eq
      (SimpleGroundTruth.mk
        [[t0, a1, a2, a3], [t1, a1 + d1, a2 + d2, a3 + d3],
          [t2, a1 + 2 * d1, a2 + 2 * d2, a3 + 2 * d3]] 1 0) 2
      [t1, a1 + d1, a2 + d2, a3 + d3]
      [t2, a1 + 2 * d1, a2 + 2 * d2, a3 + 2 * d3]
      (a1 + d1) (a2 + d2) (a3 + d3) t2 (a1 + 2 * d1) (a2 + 2 * d2)
      (a3 + 2 * d3)
      (by norm_num [GroundTruth.getDataLine, pyGet]; try rfl)
      (by norm_num [GroundTruth.getDataLine, pyGet]; try rfl)
      rfl rfl rfl rfl rfl rfl rfl
    simp only [one_mul] at h1 h2
    refine ⟨_, _, h1, h2, ?_, ?_⟩
    · rw [norm_E3]
      congr 1
      push_cast
      ring
    · rw [norm_E3]
      congr 1
      push_cast
      ring

/-- Witness for C5: at a concrete dataset (unit step along the x axis,
scale 1) the abs_scale of frame 1 is the distance from the current position
(1,0,0) to the preceding position (0,0,0). -/
theorem simple_abs_scale_euclidean_witness :
    Real.sqrt ((1 : ℚ)) =
      dist (E3 1 0 0) (E3 ((1 : ℚ) * 0) ((1 : ℚ) * 0) ((1 : ℚ) * 0)) :=
  simple_abs_scale_euclidean.1
    ⟨[[0, 0, 0, 0], [1, 1, 0, 0], [2, 2, 0, 0]], 1, 0⟩ 1
    1 1 0 0 1 [0, 0, 0, 0] [1, 1, 0, 0] 0 0 0 1 1 0 0
    (by with_unfolding_all decide) (by with_unfolding_all decide)
    (by with_unfolding_all decide) (by with_unfolding_all decide)
    (by with_unfolding_all decide) (by with_unfolding_all decide)
    (by with_unfolding_all decide) (by with_unfolding_all decide)
    (by with_unfolding_all decide) (by with_unfolding_all decide)
